import Mathlib

/-!
Verification development for the reckon redis-sampling engine.

The Go source is shallowly embedded as follows:
* Go `map[int]int64` frequency tables become association lists `Freq = List (Int × Int)`
  with map-read semantics given by `findCount` (missing key reads as 0, matching Go's
  zero-value read).  Go map iteration order is unspecified; the embedding fixes the
  list order, and statements about maps are phrased pointwise (`FreqEquiv`, `SetEquiv`)
  wherever iteration order could matter.
* Go `map[string]bool` sets become `StrSet = List String`, inserted without duplicates.
* Go `int`/`int64` arithmetic is modelled by unbounded `Int`; no claim below exercises
  wraparound behaviour.
* Go `float64` values are modelled by exact rationals; a division by zero (the only
  source of a non-finite float in this code) is modelled as `none : Option ℚ`,
  standing for the IEEE NaN/Inf results.  `math.Sqrt` is strictly monotone on the
  nonnegatives, so the `StdDev` field is carried as its radicand (`stdDevSq`).
-/

namespace Reckon

/-- A Go `map[int]int64` frequency table, embedded as an association list. -/
abbrev Freq := List (Int × Int)

/-- A Go `map[string]bool` "set", embedded as a duplicate-free list of members. -/
abbrev StrSet := List String

/-- Go map read `m[k]`: the stored count, or the zero value 0 when absent. -/
def findCount : Freq → Int → Int
  | [], _ => 0
  | kv :: rest, k => if kv.1 = k then kv.2 else findCount rest k

/-- The keys of a frequency table. -/
def keysOf (m : Freq) : List Int := m.map Prod.fst

/-- A frequency table that is a faithful image of a Go map: no key occurs twice. -/
def NodupKeys (m : Freq) : Prop := (keysOf m).Nodup

instance (m : Freq) : Decidable (NodupKeys m) := by
  unfold NodupKeys
  infer_instance

/-- Go map write `m[k] += v` (reads the zero value 0 when `k` is absent, so an
absent key is inserted with count `v`).  This is the body of both `merge`
(stats.go line 187) and the accumulation in `ComputePowerOfTwoFreq`
(stats.go lines 57-61), which are semantically identical on maps. -/
def bump : Freq → Int → Int → Freq
  | [], k, v => [(k, v)]
  | kv :: rest, k, v => if kv.1 = k then (kv.1, kv.2 + v) :: rest else kv :: bump rest k v

/-- stats.go `merge`: inserts all key/value pairs in `b` into `a`; values of
shared keys are summed.  The Go function mutates `a` in place; the embedding
returns the updated map. -/
def merge (a : Freq) (b : Freq) : Freq :=
  b.foldl (fun x kv => bump x kv.1 kv.2) a

/-- Go set write `s[e] = true` on a `map[string]bool`. -/
def setInsert (s : StrSet) (e : String) : StrSet :=
  if e ∈ s then s else s ++ [e]

/-- stats.go `union`: set union of `a` and `b`, stored into `a`. -/
def union (a : StrSet) (b : StrSet) : StrSet :=
  b.foldl setInsert a

/-- stats.go `add`: adds `elem` to the set only when the current size of the
set is below `maxsize`. -/
def add (set : StrSet) (elem : String) (maxsize : Nat) : StrSet :=
  if maxsize ≤ set.length then set else setInsert set elem

/-- stats.go `trim`: a new set of up to `n` members of `s` (Go picks them in
map-iteration order, which is unspecified; the embedding takes list order). -/
def trimAux : StrSet → Nat → StrSet → StrSet
  | [], _, t => t
  | k :: rest, n, t =>
      let t2 := setInsert t k
      if t2.length = n then t2 else trimAux rest n t2

/-- stats.go `trim`, starting from the empty accumulator. -/
def trim (s : StrSet) (n : Nat) : StrSet := trimAux s n []

/-- Two frequency tables are equivalent when every key reads the same count. -/
def FreqEquiv (m1 m2 : Freq) : Prop := ∀ k, findCount m1 k = findCount m2 k

/-- Two embedded string sets are equivalent when they have the same members. -/
def SetEquiv (s1 s2 : StrSet) : Prop := ∀ x, x ∈ s1 ↔ x ∈ s2

theorem findCount_bump (m : Freq) (k v j : Int) :
    findCount (bump m k v) j = findCount m j + (if j = k then v else 0) := by
  induction m with
  | nil =>
      simp only [bump, findCount]
      by_cases hj : j = k
      · simp [hj]
      · have hk : ¬ k = j := fun h => hj h.symm
        simp [hj, hk]
  | cons kv rest ih =>
      simp only [bump]
      by_cases hk : kv.1 = k
      · simp only [if_pos hk, findCount]
        by_cases hj : kv.1 = j
        · have hjk : j = k := by rw [← hj, hk]
          simp [hj, hjk]
        · have hjk : ¬ j = k := by rw [← hk]; exact fun h => hj h.symm
          simp [hj, hjk]
      · simp only [if_neg hk, findCount, ih]
        by_cases hj : kv.1 = j
        · have hjk : ¬ j = k := fun h => hk (hj.trans h)
          simp [hj, hjk]
        · simp [hj]

theorem findCount_eq_zero_of_not_mem (m : Freq) (k : Int) (h : k ∉ keysOf m) :
    findCount m k = 0 := by
  induction m with
  | nil => rfl
  | cons kv rest ih =>
      simp only [keysOf, List.map_cons, List.mem_cons, not_or] at h
      have : ¬ kv.1 = k := fun he => h.1 he.symm
      simpa [findCount, this] using ih (by simpa [keysOf] using h.2)

theorem findCount_merge (a b : Freq) (hb : NodupKeys b) (k : Int) :
    findCount (merge a b) k = findCount a k + findCount b k := by
  induction b generalizing a with
  | nil => simp [merge, findCount]
  | cons kv rest ih =>
      simp only [NodupKeys, keysOf, List.map_cons, List.nodup_cons] at hb
      have hmerge : merge a (kv :: rest) = merge (bump a kv.1 kv.2) rest := rfl
      rw [hmerge, ih _ hb.2, findCount_bump]
      by_cases hk : k = kv.1
      · subst hk
        have hz : findCount rest kv.1 = 0 :=
          findCount_eq_zero_of_not_mem rest kv.1 hb.1
        simp [findCount, hz]
      · have hk2 : ¬ kv.1 = k := fun he => hk he.symm
        simp [findCount, hk, hk2]

theorem keysOf_bump (m : Freq) (k v j : Int) :
    j ∈ keysOf (bump m k v) ↔ j ∈ keysOf m ∨ j = k := by
  induction m with
  | nil => simp [bump, keysOf]
  | cons kv rest ih =>
      by_cases hk : kv.1 = k
      · subst hk; simp [bump, keysOf]; tauto
      · simp [bump, keysOf, hk] at ih ⊢
        tauto

theorem NodupKeys_bump (m : Freq) (k v : Int) (h : NodupKeys m) :
    NodupKeys (bump m k v) := by
  induction m with
  | nil => simp [bump, NodupKeys, keysOf]
  | cons kv rest ih =>
      simp only [NodupKeys, keysOf, List.map_cons, List.nodup_cons] at h
      by_cases hk : kv.1 = k
      · simpa [bump, NodupKeys, keysOf, hk] using h
      · have h1 : kv.1 ∉ keysOf (bump rest k v) := by
          rw [keysOf_bump]
          push_neg
          exact ⟨h.1, hk⟩
        have h2 := ih h.2
        simpa [bump, NodupKeys, keysOf, hk] using
          And.intro (by simpa [keysOf] using h1) (by simpa [NodupKeys, keysOf] using h2)

theorem NodupKeys_merge (a b : Freq) (ha : NodupKeys a) : NodupKeys (merge a b) := by
  induction b generalizing a with
  | nil => exact ha
  | cons kv rest ih => exact ih _ (NodupKeys_bump a kv.1 kv.2 ha)

theorem mem_setInsert (s : StrSet) (e x : String) :
    x ∈ setInsert s e ↔ x ∈ s ∨ x = e := by
  by_cases hx : e ∈ s
  · simp [setInsert, hx]
    intro h; rw [h] at *; exact hx
  · simp [setInsert, hx]

theorem mem_union (a b : StrSet) (x : String) :
    x ∈ union a b ↔ x ∈ a ∨ x ∈ b := by
  induction b generalizing a with
  | nil => simp [union]
  | cons e rest ih =>
      have : union a (e :: rest) = union (setInsert a e) rest := rfl
      rw [this, ih, mem_setInsert]
      simp
      tauto

theorem freq_merge_assoc (a b c : Freq) (hb : NodupKeys b) (hc : NodupKeys c) :
    FreqEquiv (merge (merge a b) c) (merge a (merge b c)) := by
  intro k
  rw [findCount_merge _ c hc, findCount_merge a b hb,
    findCount_merge a (merge b c) (NodupKeys_merge b c hb), findCount_merge b c hc]
  ring

theorem freq_merge_comm (a b : Freq) (ha : NodupKeys a) (hb : NodupKeys b) :
    FreqEquiv (merge a b) (merge b a) := by
  intro k
  rw [findCount_merge a b hb, findCount_merge b a ha]
  ring

theorem set_union_assoc (a b c : StrSet) :
    SetEquiv (union (union a b) c) (union a (union b c)) := by
  intro x
  rw [mem_union, mem_union, mem_union, mem_union]
  tauto

theorem set_union_comm (a b : StrSet) : SetEquiv (union a b) (union b a) := by
  intro x
  rw [mem_union, mem_union]
  tauto

/-- stats.go `MaxExampleKeys`: cap on captured example keys. -/
def MaxExampleKeys : Nat := 10

/-- stats.go `MaxExampleElements`: cap on captured example elements. -/
def MaxExampleElements : Nat := 10

/-- stats.go `MaxExampleValues`: cap on captured example values. -/
def MaxExampleValues : Nat := 10

/-- stats.go `Results`: per-bucket sampling data.  Frequency tables map
lengths/sizes to occurrence counts; example keys/elements/values live in
bounded string sets. -/
structure Results where
  keyCount : Int
  stringSizes : Freq
  stringKeys : StrSet
  stringValues : StrSet
  setSizes : Freq
  setElementSizes : Freq
  setKeys : StrSet
  setElements : StrSet
  sortedSetSizes : Freq
  sortedSetElementSizes : Freq
  sortedSetKeys : StrSet
  sortedSetElements : StrSet
  hashSizes : Freq
  hashElementSizes : Freq
  hashValueSizes : Freq
  hashKeys : StrSet
  hashElements : StrSet
  hashValues : StrSet
  listSizes : Freq
  listElementSizes : Freq
  listKeys : StrSet
  listElements : StrSet
deriving DecidableEq

/-- stats.go `NewResults`: the zero-valued `Results` with empty maps. -/
def NewResults : Results :=
  { keyCount := 0
    stringSizes := [], stringKeys := [], stringValues := []
    setSizes := [], setElementSizes := [], setKeys := [], setElements := []
    sortedSetSizes := [], sortedSetElementSizes := []
    sortedSetKeys := [], sortedSetElements := []
    hashSizes := [], hashElementSizes := [], hashValueSizes := []
    hashKeys := [], hashElements := [], hashValues := []
    listSizes := [], listElementSizes := [], listKeys := [], listElements := [] }

/-- stats.go `Results.Merge`: adds the results from `other` into the
receiver: `KeyCount` summed, all example sets unioned, all frequency
tables merged. -/
def Results.Merge (r : Results) (other : Results) : Results :=
  { keyCount := r.keyCount + other.keyCount
    stringKeys := union r.stringKeys other.stringKeys
    stringValues := union r.stringValues other.stringValues
    setKeys := union r.setKeys other.setKeys
    setElements := union r.setElements other.setElements
    sortedSetKeys := union r.sortedSetKeys other.sortedSetKeys
    sortedSetElements := union r.sortedSetElements other.sortedSetElements
    hashKeys := union r.hashKeys other.hashKeys
    hashElements := union r.hashElements other.hashElements
    hashValues := union r.hashValues other.hashValues
    listKeys := union r.listKeys other.listKeys
    listElements := union r.listElements other.listElements
    stringSizes := merge r.stringSizes other.stringSizes
    setSizes := merge r.setSizes other.setSizes
    setElementSizes := merge r.setElementSizes other.setElementSizes
    sortedSetSizes := merge r.sortedSetSizes other.sortedSetSizes
    sortedSetElementSizes := merge r.sortedSetElementSizes other.sortedSetElementSizes
    hashSizes := merge r.hashSizes other.hashSizes
    hashElementSizes := merge r.hashElementSizes other.hashElementSizes
    hashValueSizes := merge r.hashValueSizes other.hashValueSizes
    listSizes := merge r.listSizes other.listSizes
    listElementSizes := merge r.listElementSizes other.listElementSizes }

/-- stats.go `Results.observeSet`. -/
def Results.observeSet (r : Results) (key : String) (length : Int) (member : String) : Results :=
  { r with
    keyCount := r.keyCount + 1
    setSizes := bump r.setSizes length 1
    setElementSizes := bump r.setElementSizes (member.length : Int) 1
    setKeys := add r.setKeys key MaxExampleKeys
    setElements := add r.setElements member MaxExampleElements }

/-- stats.go `Results.observeSortedSet`. -/
def Results.observeSortedSet (r : Results) (key : String) (length : Int) (member : String) :
    Results :=
  { r with
    keyCount := r.keyCount + 1
    sortedSetSizes := bump r.sortedSetSizes length 1
    sortedSetElementSizes := bump r.sortedSetElementSizes (member.length : Int) 1
    sortedSetKeys := add r.sortedSetKeys key MaxExampleKeys
    sortedSetElements := add r.sortedSetElements member MaxExampleElements }

/-- stats.go `Results.observeHash`. -/
def Results.observeHash (r : Results) (key : String) (length : Int)
    (field : String) (value : String) : Results :=
  { r with
    keyCount := r.keyCount + 1
    hashSizes := bump r.hashSizes length 1
    hashValueSizes := bump r.hashValueSizes (value.length : Int) 1
    hashElementSizes := bump r.hashElementSizes (field.length : Int) 1
    hashKeys := add r.hashKeys key MaxExampleKeys
    hashElements := add r.hashElements field MaxExampleElements
    hashValues := add r.hashValues value MaxExampleValues }

/-- stats.go `Results.observeList`. -/
def Results.observeList (r : Results) (key : String) (length : Int) (member : String) : Results :=
  { r with
    keyCount := r.keyCount + 1
    listSizes := bump r.listSizes length 1
    listElementSizes := bump r.listElementSizes (member.length : Int) 1
    listKeys := add r.listKeys key MaxExampleKeys
    listElements := add r.listElements member MaxExampleElements }

/-- stats.go `Results.observeString`. -/
def Results.observeString (r : Results) (key : String) (value : String) : Results :=
  { r with
    keyCount := r.keyCount + 1
    stringSizes := bump r.stringSizes (value.length : Int) 1
    stringKeys := add r.stringKeys key MaxExampleKeys
    stringValues := add r.stringValues value MaxExampleValues }

/-- All ten frequency tables of a `Results` are faithful Go maps (no duplicate keys). -/
def ResultsNodup (r : Results) : Prop :=
  NodupKeys r.stringSizes ∧ NodupKeys r.setSizes ∧ NodupKeys r.setElementSizes ∧
  NodupKeys r.sortedSetSizes ∧ NodupKeys r.sortedSetElementSizes ∧
  NodupKeys r.hashSizes ∧ NodupKeys r.hashElementSizes ∧ NodupKeys r.hashValueSizes ∧
  NodupKeys r.listSizes ∧ NodupKeys r.listElementSizes

instance (r : Results) : Decidable (ResultsNodup r) := by
  unfold ResultsNodup NodupKeys
  infer_instance

/-- Observable equality of two `Results`: equal key counts, pointwise equal
frequency tables and equal-membership example sets. -/
def ResultsEquiv (r1 r2 : Results) : Prop :=
  r1.keyCount = r2.keyCount ∧
  FreqEquiv r1.stringSizes r2.stringSizes ∧
  FreqEquiv r1.setSizes r2.setSizes ∧
  FreqEquiv r1.setElementSizes r2.setElementSizes ∧
  FreqEquiv r1.sortedSetSizes r2.sortedSetSizes ∧
  FreqEquiv r1.sortedSetElementSizes r2.sortedSetElementSizes ∧
  FreqEquiv r1.hashSizes r2.hashSizes ∧
  FreqEquiv r1.hashElementSizes r2.hashElementSizes ∧
  FreqEquiv r1.hashValueSizes r2.hashValueSizes ∧
  FreqEquiv r1.listSizes r2.listSizes ∧
  FreqEquiv r1.listElementSizes r2.listElementSizes ∧
  SetEquiv r1.stringKeys r2.stringKeys ∧
  SetEquiv r1.stringValues r2.stringValues ∧
  SetEquiv r1.setKeys r2.setKeys ∧
  SetEquiv r1.setElements r2.setElements ∧
  SetEquiv r1.sortedSetKeys r2.sortedSetKeys ∧
  SetEquiv r1.sortedSetElements r2.sortedSetElements ∧
  SetEquiv r1.hashKeys r2.hashKeys ∧
  SetEquiv r1.hashElements r2.hashElements ∧
  SetEquiv r1.hashValues r2.hashValues ∧
  SetEquiv r1.listKeys r2.listKeys ∧
  SetEquiv r1.listElements r2.listElements

theorem results_merge_assoc (ra rb rc : Results)
    (hb : ResultsNodup rb) (hc : ResultsNodup rc) :
    ResultsEquiv ((ra.Merge rb).Merge rc) (ra.Merge (rb.Merge rc)) := by
  obtain ⟨hb1, hb2, hb3, hb4, hb5, hb6, hb7, hb8, hb9, hb10⟩ := hb
  obtain ⟨hc1, hc2, hc3, hc4, hc5, hc6, hc7, hc8, hc9, hc10⟩ := hc
  refine ⟨by simp [Results.Merge]; ring, ?_, ?_, ?_, ?_, ?_, ?_, ?_, ?_, ?_, ?_,
    ?_, ?_, ?_, ?_, ?_, ?_, ?_, ?_, ?_, ?_, ?_⟩
  · exact freq_merge_assoc _ _ _ hb1 hc1
  · exact freq_merge_assoc _ _ _ hb2 hc2
  · exact freq_merge_assoc _ _ _ hb3 hc3
  · exact freq_merge_assoc _ _ _ hb4 hc4
  · exact freq_merge_assoc _ _ _ hb5 hc5
  · exact freq_merge_assoc _ _ _ hb6 hc6
  · exact freq_merge_assoc _ _ _ hb7 hc7
  · exact freq_merge_assoc _ _ _ hb8 hc8
  · exact freq_merge_assoc _ _ _ hb9 hc9
  · exact freq_merge_assoc _ _ _ hb10 hc10
  · exact set_union_assoc _ _ _
  · exact set_union_assoc _ _ _
  · exact set_union_assoc _ _ _
  · exact set_union_assoc _ _ _
  · exact set_union_assoc _ _ _
  · exact set_union_assoc _ _ _
  · exact set_union_assoc _ _ _
  · exact set_union_assoc _ _ _
  · exact set_union_assoc _ _ _
  · exact set_union_assoc _ _ _
  · exact set_union_assoc _ _ _

theorem results_merge_comm (ra rb : Results)
    (ha : ResultsNodup ra) (hb : ResultsNodup rb) :
    ResultsEquiv (ra.Merge rb) (rb.Merge ra) := by
  obtain ⟨ha1, ha2, ha3, ha4, ha5, ha6, ha7, ha8, ha9, ha10⟩ := ha
  obtain ⟨hb1, hb2, hb3, hb4, hb5, hb6, hb7, hb8, hb9, hb10⟩ := hb
  refine ⟨by simp [Results.Merge]; ring, ?_, ?_, ?_, ?_, ?_, ?_, ?_, ?_, ?_, ?_,
    ?_, ?_, ?_, ?_, ?_, ?_, ?_, ?_, ?_, ?_, ?_⟩
  · exact freq_merge_comm _ _ ha1 hb1
  · exact freq_merge_comm _ _ ha2 hb2
  · exact freq_merge_comm _ _ ha3 hb3
  · exact freq_merge_comm _ _ ha4 hb4
  · exact freq_merge_comm _ _ ha5 hb5
  · exact freq_merge_comm _ _ ha6 hb6
  · exact freq_merge_comm _ _ ha7 hb7
  · exact freq_merge_comm _ _ ha8 hb8
  · exact freq_merge_comm _ _ ha9 hb9
  · exact freq_merge_comm _ _ ha10 hb10
  · exact set_union_comm _ _
  · exact set_union_comm _ _
  · exact set_union_comm _ _
  · exact set_union_comm _ _
  · exact set_union_comm _ _
  · exact set_union_comm _ _
  · exact set_union_comm _ _
  · exact set_union_comm _ _
  · exact set_union_comm _ _
  · exact set_union_comm _ _
  · exact set_union_comm _ _

/-- C5: histogram `merge` is associative and commutative over the resulting
occurrence counts, and the set unions and `KeyCount` sums performed by
`Results.Merge` are likewise associative and commutative, for every trio of
Go-map histograms and of `Results` values. -/
theorem c5_merge_assoc_comm (a b c : Freq) (ra rb rc : Results)
    (ha : NodupKeys a) (hb : NodupKeys b) (hc : NodupKeys c)
    (hra : ResultsNodup ra) (hrb : ResultsNodup rb) (hrc : ResultsNodup rc) :
    FreqEquiv (merge (merge a b) c) (merge a (merge b c)) ∧
    FreqEquiv (merge a b) (merge b a) ∧
    ResultsEquiv ((ra.Merge rb).Merge rc) (ra.Merge (rb.Merge rc)) ∧
    ResultsEquiv (ra.Merge rb) (rb.Merge ra) :=
  ⟨freq_merge_assoc a b c hb hc, freq_merge_comm a b ha hb,
   results_merge_assoc ra rb rc hrb hrc, results_merge_comm ra rb hra hrb⟩

/-- Concrete histogram used to witness C5. -/
def freqA : Freq := [(1, 2), (3, 4)]

/-- Concrete histogram used to witness C5. -/
def freqB : Freq := [(1, 5), (7, 1)]

/-- Concrete histogram used to witness C5. -/
def freqC : Freq := [(3, 2), (9, 6)]

/-- Concrete `Results` used to witness C5. -/
def resA : Results :=
  { NewResults with keyCount := 2, stringSizes := [(4, 2)], stringKeys := ["a1", "a2"] }

/-- Concrete `Results` used to witness C5. -/
def resB : Results :=
  { NewResults with keyCount := 1, stringSizes := [(4, 1), (6, 3)], hashKeys := ["b1"] }

/-- Concrete `Results` used to witness C5. -/
def resC : Results :=
  { NewResults with keyCount := 4, listSizes := [(2, 9)], stringKeys := ["a2", "c1"] }

/-- Witness for C5 at concrete histograms and `Results`. -/
theorem c5_witness :
    (NodupKeys freqA ∧ NodupKeys freqB ∧ NodupKeys freqC ∧
      ResultsNodup resA ∧ ResultsNodup resB ∧ ResultsNodup resC) ∧
    (FreqEquiv (merge (merge freqA freqB) freqC) (merge freqA (merge freqB freqC)) ∧
      FreqEquiv (merge freqA freqB) (merge freqB freqA) ∧
      ResultsEquiv ((resA.Merge resB).Merge resC) (resA.Merge (resB.Merge resC)) ∧
      ResultsEquiv (resA.Merge resB) (resB.Merge resA)) :=
  ⟨by refine ⟨?_, ?_, ?_, ?_, ?_, ?_⟩ <;> decide,
   c5_merge_assoc_comm freqA freqB freqC resA resB resC
     (by decide) (by decide) (by decide) (by decide) (by decide) (by decide)⟩

/-- C6: merging the empty histogram twice leaves `a` unchanged, while
re-merging a non-empty histogram `b` double-counts every key of `b`, so the
twice-merged counts differ from the once-merged counts. -/
theorem c6_merge_non_idempotent (a b : Freq) (hb : NodupKeys b) (hne : b ≠ [])
    (hpos : ∀ kv ∈ b, 0 < kv.2) :
    merge (merge a []) [] = a ∧
    (∀ k, findCount (merge (merge a b) b) k = findCount a k + 2 * findCount b k) ∧
    ¬ FreqEquiv (merge (merge a b) b) (merge a b) := by
  refine ⟨rfl, ?_, ?_⟩
  · intro k
    rw [findCount_merge _ b hb, findCount_merge a b hb]
    ring
  · cases b with
    | nil => exact absurd rfl hne
    | cons kv rest =>
        intro hEq
        have h1 := hEq kv.1
        rw [findCount_merge _ _ hb, findCount_merge a _ hb] at h1
        have hhead : findCount (kv :: rest) kv.1 = kv.2 := by simp [findCount]
        have hp : 0 < kv.2 := hpos kv (List.mem_cons_self kv rest)
        omega

/-- Witness for C6 at a concrete pair of histograms sharing the key 1. -/
theorem c6_witness :
    (NodupKeys [((1 : Int), (3 : Int)), (5, 1)] ∧
      ([((1 : Int), (3 : Int)), (5, 1)] : Freq) ≠ [] ∧
      ∀ kv ∈ ([((1 : Int), (3 : Int)), (5, 1)] : Freq), 0 < kv.2) ∧
    (merge (merge [((1 : Int), (2 : Int))] []) [] = [((1 : Int), (2 : Int))] ∧
      (∀ k, findCount (merge (merge [((1 : Int), (2 : Int))] [(1, 3), (5, 1)]) [(1, 3), (5, 1)]) k =
        findCount [((1 : Int), (2 : Int))] k + 2 * findCount [((1 : Int), (3 : Int)), (5, 1)] k) ∧
      ¬ FreqEquiv (merge (merge [((1 : Int), (2 : Int))] [(1, 3), (5, 1)]) [(1, 3), (5, 1)])
        (merge [((1 : Int), (2 : Int))] [(1, 3), (5, 1)])) :=
  ⟨⟨by decide, by decide, by decide⟩,
   c6_merge_non_idempotent [(1, 2)] [(1, 3), (5, 1)] (by decide) (by decide) (by decide)⟩

/-- An example set that respects a cap: duplicate-free and at most `cap` members. -/
def SetWithinCap (s : StrSet) (cap : Nat) : Prop := s.Nodup ∧ s.length ≤ cap

instance (s : StrSet) (cap : Nat) : Decidable (SetWithinCap s cap) := by
  unfold SetWithinCap
  infer_instance

/-- All eleven example sets of a `Results` respect their ingestion caps. -/
def ExampleSetsBounded (r : Results) : Prop :=
  SetWithinCap r.stringKeys MaxExampleKeys ∧
  SetWithinCap r.stringValues MaxExampleValues ∧
  SetWithinCap r.setKeys MaxExampleKeys ∧
  SetWithinCap r.setElements MaxExampleElements ∧
  SetWithinCap r.sortedSetKeys MaxExampleKeys ∧
  SetWithinCap r.sortedSetElements MaxExampleElements ∧
  SetWithinCap r.hashKeys MaxExampleKeys ∧
  SetWithinCap r.hashElements MaxExampleElements ∧
  SetWithinCap r.hashValues MaxExampleValues ∧
  SetWithinCap r.listKeys MaxExampleKeys ∧
  SetWithinCap r.listElements MaxExampleElements

instance (r : Results) : Decidable (ExampleSetsBounded r) := by
  unfold ExampleSetsBounded
  infer_instance

/-- A `Results` whose string example-key set is exactly at the 10-key cap. -/
def capResA : Results :=
  { NewResults with
    stringKeys := ["a0", "a1", "a2", "a3", "a4", "a5", "a6", "a7", "a8", "a9"] }

/-- A `Results` whose string example-key set holds 6 keys, disjoint from `capResA`. -/
def capResB : Results :=
  { NewResults with stringKeys := ["b0", "b1", "b2", "b3", "b4", "b5"] }

/-- C7: `Results.Merge` takes a plain set union of example sets without
re-enforcing the 10-element cap: two cap-respecting `Results` merge into one
whose string example-key set holds 16 > 10 members; the cap is re-established
only by a later `trim`. -/
theorem c7_merge_exceeds_cap :
    ExampleSetsBounded capResA ∧ ExampleSetsBounded capResB ∧
    MaxExampleKeys < ((capResA.Merge capResB).stringKeys).length ∧
    ((capResA.Merge capResB).stringKeys).length = 16 ∧
    (trim ((capResA.Merge capResB).stringKeys) MaxExampleKeys).length = MaxExampleKeys := by
  refine ⟨by decide, by decide, by decide, by decide, by decide⟩

theorem setInsert_nodup (s : StrSet) (e : String) (h : s.Nodup) : (setInsert s e).Nodup := by
  by_cases he : e ∈ s
  · simpa [setInsert, he] using h
  · simp [setInsert, he, List.nodup_append, h]

theorem setInsert_length_le (s : StrSet) (e : String) :
    (setInsert s e).length ≤ s.length + 1 := by
  by_cases he : e ∈ s <;> simp [setInsert, he]

theorem add_within_cap (s : StrSet) (e : String) (cap : Nat)
    (h : SetWithinCap s cap) : SetWithinCap (add s e cap) cap := by
  by_cases hlen : cap ≤ s.length
  · simpa [add, hlen] using h
  · refine ⟨?_, ?_⟩
    · simpa [add, hlen] using setInsert_nodup s e h.1
    · have h1 := setInsert_length_le s e
      simp only [add, if_neg hlen]
      omega

/-- One call to one of the five `observe` methods, with its arguments. -/
inductive ObserveEvent
  | str (key value : String)
  | list (key : String) (length : Int) (member : String)
  | set (key : String) (length : Int) (member : String)
  | zset (key : String) (length : Int) (member : String)
  | hash (key : String) (length : Int) (field value : String)

/-- Dispatches one `ObserveEvent` to the matching `observe` method. -/
def applyEvent (r : Results) : ObserveEvent → Results
  | .str k v => r.observeString k v
  | .list k l m => r.observeList k l m
  | .set k l m => r.observeSet k l m
  | .zset k l m => r.observeSortedSet k l m
  | .hash k l f v => r.observeHash k l f v

/-- A finite sequence of `observe` calls, applied in order. -/
def applyEvents (r : Results) (es : List ObserveEvent) : Results := es.foldl applyEvent r

theorem applyEvent_bounded (r : Results) (e : ObserveEvent)
    (h : ExampleSetsBounded r) : ExampleSetsBounded (applyEvent r e) := by
  obtain ⟨h1, h2, h3, h4, h5, h6, h7, h8, h9, h10, h11⟩ := h
  cases e with
  | str k v =>
      exact ⟨add_within_cap _ _ _ h1, add_within_cap _ _ _ h2,
        h3, h4, h5, h6, h7, h8, h9, h10, h11⟩
  | list k l m =>
      exact ⟨h1, h2, h3, h4, h5, h6, h7, h8, h9,
        add_within_cap _ _ _ h10, add_within_cap _ _ _ h11⟩
  | set k l m =>
      exact ⟨h1, h2, add_within_cap _ _ _ h3, add_within_cap _ _ _ h4,
        h5, h6, h7, h8, h9, h10, h11⟩
  | zset k l m =>
      exact ⟨h1, h2, h3, h4, add_within_cap _ _ _ h5, add_within_cap _ _ _ h6,
        h7, h8, h9, h10, h11⟩
  | hash k l f v =>
      exact ⟨h1, h2, h3, h4, h5, h6, add_within_cap _ _ _ h7,
        add_within_cap _ _ _ h8, add_within_cap _ _ _ h9, h10, h11⟩

theorem applyEvents_bounded (es : List ObserveEvent) (r : Results)
    (h : ExampleSetsBounded r) : ExampleSetsBounded (applyEvents r es) := by
  induction es generalizing r with
  | nil => exact h
  | cons e rest ih => exact ih (applyEvent r e) (applyEvent_bounded r e h)

/-- C8: starting from `NewResults`, after any finite sequence of `observe`
calls every example set is duplicate-free with at most 10 entries, and an
`add` into a set already at its cap is a no-op. -/
theorem c8_caps_enforced_at_ingestion :
    (∀ es : List ObserveEvent, ExampleSetsBounded (applyEvents NewResults es)) ∧
    (∀ (s : StrSet) (e : String) (n : Nat), n ≤ s.length → add s e n = s) := by
  constructor
  · intro es
    exact applyEvents_bounded es NewResults (by decide)
  · intro s e n h
    simp [add, h]

/-- Twelve string observations with distinct keys and values, used to witness C8. -/
def capEvents : List ObserveEvent :=
  [ObserveEvent.str "k01" "w01", ObserveEvent.str "k02" "w02", ObserveEvent.str "k03" "w03",
   ObserveEvent.str "k04" "w04", ObserveEvent.str "k05" "w05", ObserveEvent.str "k06" "w06",
   ObserveEvent.str "k07" "w07", ObserveEvent.str "k08" "w08", ObserveEvent.str "k09" "w09",
   ObserveEvent.str "k10" "w10", ObserveEvent.str "k11" "w11", ObserveEvent.str "k12" "w12"]

/-- A concrete example set already at the 10-member cap. -/
def capSet10 : StrSet := ["a", "b", "c", "d", "e", "f", "g", "h", "i", "j"]

/-- Witness for C8: the caps hold after twelve distinct string observations,
and an `add` into a full set really is a no-op. -/
theorem c8_witness :
    ExampleSetsBounded (applyEvents NewResults capEvents) ∧
    ((10 : Nat) ≤ capSet10.length ∧ add capSet10 "zz" 10 = capSet10) :=
  ⟨c8_caps_enforced_at_ingestion.1 capEvents,
   by decide, c8_caps_enforced_at_ingestion.2 capSet10 "zz" 10 (by decide)⟩

/-- Float64 division `a / b` of stats.go, over the exact-rational model:
`none` stands for the non-finite float64 (NaN or ±Inf) produced when `b = 0`,
the only source of a non-finite value in this code. -/
def fdiv (a b : ℚ) : Option ℚ := if b = 0 then none else some (a / b)

/-- stats.go `Statistics`.  `mean` models the float64 `Mean`; `stdDevSq`
carries the radicand `sd / count` whose square root the Go code stores in
`StdDev` (math.Sqrt is strictly monotone on the nonnegatives and maps NaN to
NaN, so every claim about `StdDev` is settled on the radicand). -/
structure Statistics where
  mean : Option ℚ
  min : Int
  max : Int
  stdDevSq : Option ℚ
deriving DecidableEq

/-- Accumulator of the first loop of `ComputeStatistics` (stats.go lines
74-87): running min, max, weighted sum and total count. -/
structure Pass1 where
  mn : Int
  mx : Int
  accum : Int
  count : Int

/-- One iteration of the first loop of `ComputeStatistics`. -/
def pass1step (a : Pass1) (kv : Int × Int) : Pass1 :=
  { mn := if kv.1 < a.mn then kv.1 else a.mn
    mx := if a.mx < kv.1 then kv.1 else a.mx
    accum := a.accum + kv.1 * kv.2
    count := a.count + kv.2 }

/-- Initial accumulator: `min := math.MaxInt32`, `max := math.MinInt32`,
zero sum and count. -/
def pass1init : Pass1 :=
  { mn := 2 ^ 31 - 1, mx := -(2 ^ 31), accum := 0, count := 0 }

/-- One iteration of the second loop of `ComputeStatistics` (stats.go lines
91-94): accumulates `(kf - mean) * (kf - mean) * vf`. -/
def sdStep (mean : ℚ) (sd : ℚ) (kv : Int × Int) : ℚ :=
  sd + ((kv.1 : ℚ) - mean) * ((kv.1 : ℚ) - mean) * (kv.2 : ℚ)

/-- The returned `Statistics` once the first pass is done: mean is
`accum / count`, and `StdDev = Sqrt(sd / count)` is carried as its radicand. -/
def statsOf (m : Freq) (p : Pass1) : Statistics :=
  match fdiv (p.accum : ℚ) (p.count : ℚ) with
  | none => { mean := none, min := p.mn, max := p.mx, stdDevSq := none }
  | some mean =>
      { mean := some mean, min := p.mn, max := p.mx
        stdDevSq := fdiv (m.foldl (sdStep mean) 0) (p.count : ℚ) }

/-- stats.go `ComputeStatistics`: on the empty map it returns the zero-valued
`Statistics`; otherwise one pass for min/max/sum/count and a second pass for
the weighted squared deviations. -/
def ComputeStatistics (m : Freq) : Statistics :=
  if m = [] then { mean := some 0, min := 0, max := 0, stdDevSq := some 0 }
  else statsOf m (m.foldl pass1step pass1init)

/-- The spec-side weighted sum of keys: `sum of key * count`. -/
def keyWeightedSum (m : Freq) : Int := (m.map (fun kv => kv.1 * kv.2)).sum

/-- The spec-side total occurrence count: the sum of the histogram's counts. -/
def totalCount (m : Freq) : Int := (m.map Prod.snd).sum

/-- The spec-side weighted sum of squared deviations from `mu`. -/
def sqDevSum (m : Freq) (mu : ℚ) : ℚ :=
  (m.map (fun kv => ((kv.1 : ℚ) - mu) ^ 2 * (kv.2 : ℚ))).sum

theorem pass1_accum (m : Freq) (a : Pass1) :
    (m.foldl pass1step a).accum = a.accum + keyWeightedSum m := by
  induction m generalizing a with
  | nil => simp [keyWeightedSum]
  | cons kv rest ih =>
      rw [List.foldl_cons, ih]
      simp [pass1step, keyWeightedSum]
      ring

theorem pass1_count (m : Freq) (a : Pass1) :
    (m.foldl pass1step a).count = a.count + totalCount m := by
  induction m generalizing a with
  | nil => simp [totalCount]
  | cons kv rest ih =>
      rw [List.foldl_cons, ih]
      simp [pass1step, totalCount]
      ring

theorem sd_foldl (m : Freq) (mu s : ℚ) :
    m.foldl (sdStep mu) s = s + sqDevSum m mu := by
  induction m generalizing s with
  | nil => simp [sqDevSum]
  | cons kv rest ih =>
      rw [List.foldl_cons, ih]
      simp [sdStep, sqDevSum]
      ring

/-- C4: on every non-empty histogram, `ComputeStatistics` returns the
count-weighted mean `keyWeightedSum / totalCount` and the population
variance radicand `sqDevSum / totalCount` — the divisor is the total
occurrence count, not the number of distinct histogram entries. -/
theorem c4_population_stats_formula (m : Freq) (hne : m ≠ [])
    (hpos : ∀ kv ∈ m, 0 < kv.2) :
    (ComputeStatistics m).mean =
      some ((keyWeightedSum m : ℚ) / (totalCount m : ℚ)) ∧
    (ComputeStatistics m).stdDevSq =
      some (sqDevSum m ((keyWeightedSum m : ℚ) / (totalCount m : ℚ)) / (totalCount m : ℚ)) := by
  have hc : 0 < totalCount m := by
    apply List.sum_pos
    · intro x hx
      obtain ⟨kv, hkv, rfl⟩ := List.mem_map.1 hx
      exact hpos kv hkv
    · simpa [totalCount] using hne
  have hcQ : ((totalCount m : Int) : ℚ) ≠ 0 := by
    exact_mod_cast hc.ne'
  have hcount : (m.foldl pass1step pass1init).count = totalCount m := by
    rw [pass1_count]
    simp [pass1init]
  have haccum : (m.foldl pass1step pass1init).accum = keyWeightedSum m := by
    rw [pass1_accum]
    simp [pass1init]
  have hmean :
      fdiv ((m.foldl pass1step pass1init).accum : ℚ) ((m.foldl pass1step pass1init).count : ℚ) =
        some ((keyWeightedSum m : ℚ) / (totalCount m : ℚ)) := by
    rw [hcount, haccum, fdiv, if_neg hcQ]
  constructor
  · simp [ComputeStatistics, if_neg hne, statsOf, hmean]
  · have hmean2 :
        fdiv ((m.foldl pass1step pass1init).accum : ℚ) ((totalCount m : Int) : ℚ) =
          some ((keyWeightedSum m : ℚ) / (totalCount m : ℚ)) := by
      rw [haccum, fdiv, if_neg hcQ]
    simp only [ComputeStatistics, if_neg hne, statsOf, hcount, hmean2, sd_foldl, zero_add]
    rw [fdiv, if_neg hcQ]

/-- Witness for C4 at the concrete histogram with entries 1 ↦ 2 and 3 ↦ 1. -/
theorem c4_witness :
    (([((1 : Int), (2 : Int)), (3, 1)] : Freq) ≠ [] ∧
      ∀ kv ∈ ([((1 : Int), (2 : Int)), (3, 1)] : Freq), 0 < kv.2) ∧
    ((ComputeStatistics [(1, 2), (3, 1)]).mean =
        some ((keyWeightedSum [(1, 2), (3, 1)] : ℚ) / (totalCount [(1, 2), (3, 1)] : ℚ)) ∧
      (ComputeStatistics [(1, 2), (3, 1)]).stdDevSq =
        some (sqDevSum [(1, 2), (3, 1)]
            ((keyWeightedSum [(1, 2), (3, 1)] : ℚ) / (totalCount [(1, 2), (3, 1)] : ℚ)) /
          (totalCount [(1, 2), (3, 1)] : ℚ))) :=
  ⟨⟨by decide, by decide⟩,
   c4_population_stats_formula [(1, 2), (3, 1)] (by decide) (by decide)⟩

/-- C2 (code evaluation): on the empty histogram `ComputeStatistics` returns
the zero-valued `Statistics` — `min = 0` and `max = 0` as claimed, but mean
and standard deviation are the float64 zero value 0, not the NaN that the
claim (and the repo's own `TestStatisticsZeroValues`) expects. -/
theorem c2_empty_histogram_returns_zero :
    ComputeStatistics [] = { mean := some 0, min := 0, max := 0, stdDevSq := some 0 } ∧
    (ComputeStatistics []).mean ≠ none ∧ (ComputeStatistics []).stdDevSq ≠ none := by
  refine ⟨rfl, ?_, ?_⟩ <;> simp [ComputeStatistics]

/-- The first histogram of §8 of the spec and of the repo's `TestStatistics`. -/
def statsTestHistogram : Freq := [(-1, 1), (13, 1), (67, 1), (999, 1), (342, 1)]

/-- C3 (code evaluation): on the first test histogram the code returns
`max = 999`, `min = -1`, `mean = 284` as claimed, but the `StdDev` radicand
is `716344 / 5` (divisor = total occurrence count 5), so the code's StdDev
is `sqrt(716344/5) ≈ 378.509 < 423`, while the claim (and the repo's own
`TestStatistics`) expects `≈ 423.186 = sqrt(716344/4)`. -/
theorem c3_stddev_divisor_mismatch :
    ComputeStatistics statsTestHistogram =
      { mean := some 284, min := -1, max := 999, stdDevSq := some (716344 / 5) } ∧
    (716344 / 5 : ℚ) < 423 ^ 2 ∧ (423 : ℚ) ^ 2 < (423186 / 1000) ^ 2 := by
  refine ⟨?_, by norm_num, by norm_num⟩
  norm_num [ComputeStatistics, statsTestHistogram, statsOf, List.foldl, pass1step,
    pass1init, sdStep, fdiv, Statistics.mk.injEq]
  decide

/-- The loop of stats.go `powerOfTwo`: doubles `p` while `p < n`.  The Go
loop always runs with `p ≥ 1` (it starts at 1 and only doubles), so the
`0 < p` guard makes the invariant explicit and the recursion well founded;
at every reachable call the guard agrees with the Go condition `p < n`. -/
def powerOfTwoLoop (n : Int) (p : Int) : Int :=
  if h : 0 < p ∧ p < n then powerOfTwoLoop n (p * 2) else p
termination_by (n - p).toNat
decreasing_by
  simp_wf
  omega

/-- stats.go `powerOfTwo`: the smallest power of two that is ≥ `n`,
computed by doubling from 1. -/
def powerOfTwo (n : Int) : Int := powerOfTwoLoop n 1

/-- stats.go `ComputePowerOfTwoFreq`: re-buckets every key of `m` to
`powerOfTwo key`, summing occurrence counts that land in the same bucket. -/
def ComputePowerOfTwoFreq (m : Freq) : Freq :=
  m.foldl (fun pf kv => bump pf (powerOfTwo kv.1) kv.2) []

theorem powerOfTwoLoop_exit (n : Int) (i : ℕ) (hni : n ≤ 2 ^ i)
    (hinv : ∀ j : ℕ, j < i → (2 : Int) ^ j < n) :
    ∃ m : ℕ, powerOfTwoLoop n (2 ^ i) = 2 ^ m ∧ n ≤ 2 ^ m ∧
      ∀ j : ℕ, n ≤ (2 : Int) ^ j → (2 : Int) ^ m ≤ 2 ^ j := by
  rw [powerOfTwoLoop]
  have hcond : ¬ (0 < (2 : Int) ^ i ∧ (2 : Int) ^ i < n) := by
    push_neg
    intro _
    exact hni
  rw [dif_neg hcond]
  refine ⟨i, rfl, hni, fun j hj => ?_⟩
  have hij : i ≤ j := by
    by_contra hlt
    push_neg at hlt
    exact absurd hj (not_le.mpr (hinv j hlt))
  exact pow_le_pow_right₀ one_le_two hij

theorem powerOfTwoLoop_spec (n : Int) :
    ∀ K i : ℕ, (n - 2 ^ i).toNat ≤ K → (∀ j : ℕ, j < i → (2 : Int) ^ j < n) →
      ∃ m : ℕ, powerOfTwoLoop n (2 ^ i) = 2 ^ m ∧ n ≤ 2 ^ m ∧
        ∀ j : ℕ, n ≤ (2 : Int) ^ j → (2 : Int) ^ m ≤ 2 ^ j := by
  intro K
  induction K with
  | zero =>
      intro i hK hinv
      have hp : (0 : Int) < 2 ^ i := pow_pos two_pos i
      have hni : n ≤ 2 ^ i := by omega
      exact powerOfTwoLoop_exit n i hni hinv
  | succ K ih =>
      intro i hK hinv
      by_cases hni : n ≤ 2 ^ i
      · exact powerOfTwoLoop_exit n i hni hinv
      · push_neg at hni
        have hpos : (0 : Int) < 2 ^ i := pow_pos two_pos i
        rw [powerOfTwoLoop, dif_pos ⟨hpos, hni⟩]
        have h2 : (2 : Int) ^ i * 2 = 2 ^ (i + 1) := by ring
        rw [h2]
        apply ih (i + 1)
        · have h3 : (2 : Int) ^ (i + 1) = 2 * 2 ^ i := by ring
          omega
        · intro j hj
          by_cases hji : j < i
          · exact hinv j hji
          · have hj2 : j = i := by omega
            rw [hj2]
            exact hni

theorem powerOfTwo_spec (n : Int) :
    ∃ m : ℕ, powerOfTwo n = 2 ^ m ∧ n ≤ 2 ^ m ∧
      ∀ j : ℕ, n ≤ (2 : Int) ^ j → (2 : Int) ^ m ≤ 2 ^ j := by
  have h := powerOfTwoLoop_spec n (n - 1).toNat 0 (by norm_num) (by omega)
  simpa [powerOfTwo] using h

theorem powerOfTwo_zero : powerOfTwo 0 = 1 := by
  rw [powerOfTwo, powerOfTwoLoop]
  norm_num

theorem powerOfTwo_three : powerOfTwo 3 = 4 := by
  rw [powerOfTwo, powerOfTwoLoop]
  norm_num
  rw [powerOfTwoLoop]
  norm_num
  rw [powerOfTwoLoop]
  norm_num

theorem powerOfTwo_four : powerOfTwo 4 = 4 := by
  rw [powerOfTwo, powerOfTwoLoop]
  norm_num
  rw [powerOfTwoLoop]
  norm_num
  rw [powerOfTwoLoop]
  norm_num

theorem findCount_p2fold (m : Freq) (acc : Freq) (p : Int) :
    findCount (m.foldl (fun pf kv => bump pf (powerOfTwo kv.1) kv.2) acc) p =
      findCount acc p + (m.map (fun kv => if powerOfTwo kv.1 = p then kv.2 else 0)).sum := by
  induction m generalizing acc with
  | nil => simp
  | cons kv rest ih =>
      rw [List.foldl_cons, ih, findCount_bump]
      simp only [List.map_cons, List.sum_cons]
      by_cases h : powerOfTwo kv.1 = p
      · simp [h]
        ring
      · have h2 : ¬ p = powerOfTwo kv.1 := fun he => h he.symm
        simp [h, h2]

/-- C9: `powerOfTwo` sends every key to the smallest power of two ≥ the key
(0 maps to 1), `ComputePowerOfTwoFreq` sums the counts of keys landing in
the same bucket, and the concrete histogram `{3:2, 4:1}` re-buckets to
`{4:3}`. -/
theorem c9_power_of_two_rebucketing (k : Int) (m : Freq) (p : Int) :
    (∃ i : ℕ, powerOfTwo k = 2 ^ i) ∧
    k ≤ powerOfTwo k ∧
    (∀ j : ℕ, k ≤ (2 : Int) ^ j → powerOfTwo k ≤ 2 ^ j) ∧
    powerOfTwo 0 = 1 ∧
    findCount (ComputePowerOfTwoFreq m) p =
      (m.map (fun kv => if powerOfTwo kv.1 = p then kv.2 else 0)).sum ∧
    ComputePowerOfTwoFreq [(3, 2), (4, 1)] = [(4, 3)] := by
  obtain ⟨i, h1, h2, h3⟩ := powerOfTwo_spec k
  refine ⟨⟨i, h1⟩, by rw [h1]; exact h2, fun j hj => by rw [h1]; exact h3 j hj,
    powerOfTwo_zero, by simpa [findCount] using findCount_p2fold m [] p, ?_⟩
  show bump (bump [] (powerOfTwo 3) 2) (powerOfTwo 4) 1 = [(4, 3)]
  rw [powerOfTwo_three, powerOfTwo_four]
  decide

/-- Witness for C9: the minimality implication discharged at `k = 3`,
`j = 2`. -/
theorem c9_witness : (3 : Int) ≤ 2 ^ 2 ∧ powerOfTwo 3 ≤ 2 ^ 2 :=
  ⟨by norm_num, (c9_power_of_two_rebucketing 3 [] 0).2.2.1 2 (by norm_num)⟩

/-- reckon.go `ValueType`: the string returned by redis' TYPE command. -/
abbrev ValueType := String

/-- reckon.go `TypeString`. -/
def TypeString : ValueType := "string"

/-- reckon.go `TypeSortedSet`. -/
def TypeSortedSet : ValueType := "zset"

/-- reckon.go `TypeSet`. -/
def TypeSet : ValueType := "set"

/-- reckon.go `TypeHash`. -/
def TypeHash : ValueType := "hash"

/-- reckon.go `TypeList`. -/
def TypeList : ValueType := "list"

/-- reckon.go `Aggregator.Groups`: a pure map from key and value type to
aggregation bucket names. -/
def Aggregator := String → ValueType → List String

/-- reckon.go `AnyKey`: every key goes into the single "any-key" bucket. -/
def AnyKey : Aggregator := fun _ _ => ["any-key"]

/-- The per-bucket stats map `map[string]*Results` built by `Run`. -/
abbrev StatsMap := List (String × Results)

/-- reckon.go `ensureEntry` composed with the in-place mutation of the
obtained entry: looks up the bucket, creating it from `NewResults` when
absent, and applies the observation `f` to it. -/
def ensureApply : StatsMap → String → (Results → Results) → StatsMap
  | [], g, f => [(g, f NewResults)]
  | kv :: rest, g, f =>
      if kv.1 = g then (kv.1, f kv.2) :: rest else kv :: ensureApply rest g f

/-- The redis data the type samplers fetch for one key.  The embedding
models a healthy store: fetch-time sampler errors (which in the Go code
abort the run like any other error) are out of scope for the claims here. -/
inductive KeyData
  | strD (value : String)
  | listD (length : Int) (member : String)
  | setD (length : Int) (member : String)
  | zsetD (length : Int) (member : String)
  | hashD (length : Int) (field : String) (value : String)
  | unknownD
deriving DecidableEq

/-- One `keyResult` delivered on `Run`'s results channel: a keyResult with
non-nil `err` (carrying the error's message), or a key observation together
with the store data the samplers will fetch for it. -/
inductive Obs
  | failure (e : String)
  | key (k : String) (d : KeyData)
deriving DecidableEq

/-- reckon.go `sampleString`: observes the key's value into every
aggregation group returned for the key. -/
def sampleString (key value : String) (agg : Aggregator) (stats : StatsMap) : StatsMap :=
  (agg key TypeString).foldl
    (fun st g => ensureApply st g (fun r => r.observeString key value)) stats

/-- reckon.go `sampleList`: observes the list length and first member. -/
def sampleList (key : String) (l : Int) (member : String) (agg : Aggregator)
    (stats : StatsMap) : StatsMap :=
  (agg key TypeList).foldl
    (fun st g => ensureApply st g (fun r => r.observeList key l member)) stats

/-- reckon.go `sampleSet`: observes the set cardinality and one member. -/
def sampleSet (key : String) (l : Int) (member : String) (agg : Aggregator)
    (stats : StatsMap) : StatsMap :=
  (agg key TypeSet).foldl
    (fun st g => ensureApply st g (fun r => r.observeSet key l member)) stats

/-- reckon.go `sampleSortedSet`: observes the cardinality and lowest-rank
member. -/
def sampleSortedSet (key : String) (l : Int) (member : String) (agg : Aggregator)
    (stats : StatsMap) : StatsMap :=
  (agg key TypeSortedSet).foldl
    (fun st g => ensureApply st g (fun r => r.observeSortedSet key l member)) stats

/-- reckon.go `sampleHash`: observes the field count, first field and its
value. -/
def sampleHash (key : String) (l : Int) (field value : String) (agg : Aggregator)
    (stats : StatsMap) : StatsMap :=
  (agg key TypeHash).foldl
    (fun st g => ensureApply st g (fun r => r.observeHash key l field value)) stats

/-- The processing loop of reckon.go `Run` (lines 524-574): receives
`keyResult`s until the channel closes, returns on a delivered error or an
unknown type, increments `observed` for each observation and, in sample
mode, stops as soon as `observed = numSamples` — before dispatching that
final observation to a sampler.  `Run`'s mutable `err` variable is threaded
as `errv`; it is `none` (Go nil) when the loop is entered, and every
assignment to it inside the loop is followed by an immediate return.  The
pair returned is the stats map and `Run`'s returned error value.  Note that
the branch for a `keyResult` with non-nil `err` returns `errv` — exactly as
the Go code at line 534 returns the loop variable `err`, not `result.err`. -/
def runLoop (agg : Aggregator) (scanMode : Bool) (numSamples : Nat)
    (errv : Option String) (stats : StatsMap) (observed : Nat) :
    List Obs → StatsMap × Option String
  | [] => (stats, errv)
  | Obs.failure _ :: _ => (stats, errv)
  | Obs.key k d :: rest =>
      if scanMode = false ∧ observed + 1 = numSamples then (stats, errv)
      else
        match d with
        | KeyData.strD v =>
            runLoop agg scanMode numSamples errv (sampleString k v agg stats)
              (observed + 1) rest
        | KeyData.listD l m =>
            runLoop agg scanMode numSamples errv (sampleList k l m agg stats)
              (observed + 1) rest
        | KeyData.setD l m =>
            runLoop agg scanMode numSamples errv (sampleSet k l m agg stats)
              (observed + 1) rest
        | KeyData.zsetD l m =>
            runLoop agg scanMode numSamples errv (sampleSortedSet k l m agg stats)
              (observed + 1) rest
        | KeyData.hashD l f v =>
            runLoop agg scanMode numSamples errv (sampleHash k l f v agg stats)
              (observed + 1) rest
        | KeyData.unknownD => (stats, some ("unknown type for redis key: " ++ k))

/-- C1 (code evaluation): when the key source delivers a `keyResult` whose
`err` is non-nil, the loop returns the loop variable `err` — which is nil at
that point — instead of the delivered error, so `Run`'s caller receives a
nil error together with the partial stats. -/
theorem c1_store_error_returns_nil_error :
    runLoop AnyKey false 5 none [] 0 [Obs.failure "read tcp: connection reset"] = ([], none) ∧
    (runLoop AnyKey false 5 none [] 0 [Obs.failure "read tcp: connection reset"]).2 ≠
      some "read tcp: connection reset" := by
  exact ⟨rfl, by decide⟩

/-- The sum of `KeyCount` over every bucket of a stats map. -/
def totalKeyCount (st : StatsMap) : Int := (st.map (fun kv => kv.2.keyCount)).sum

/-- An observation that triggers neither the error return nor the
unknown-type return of the loop. -/
def okObs : Obs → Bool
  | Obs.failure _ => false
  | Obs.key _ KeyData.unknownD => false
  | Obs.key _ _ => true

theorem totalKeyCount_ensureApply (st : StatsMap) (g : String) (f : Results → Results)
    (hf : ∀ r, (f r).keyCount = r.keyCount + 1) :
    totalKeyCount (ensureApply st g f) = totalKeyCount st + 1 := by
  induction st with
  | nil => simp [ensureApply, totalKeyCount, hf, NewResults]
  | cons kv rest ih =>
      by_cases h : kv.1 = g
      · simp [ensureApply, h, totalKeyCount, hf]
        ring
      · simp only [ensureApply, if_neg h, totalKeyCount, List.map_cons, List.sum_cons] at ih ⊢
        omega

theorem totalKeyCount_sampleString (k v : String) (st : StatsMap) :
    totalKeyCount (sampleString k v AnyKey st) = totalKeyCount st + 1 :=
  totalKeyCount_ensureApply st "any-key" _ (fun _ => rfl)

theorem totalKeyCount_sampleList (k : String) (l : Int) (m : String) (st : StatsMap) :
    totalKeyCount (sampleList k l m AnyKey st) = totalKeyCount st + 1 :=
  totalKeyCount_ensureApply st "any-key" _ (fun _ => rfl)

theorem totalKeyCount_sampleSet (k : String) (l : Int) (m : String) (st : StatsMap) :
    totalKeyCount (sampleSet k l m AnyKey st) = totalKeyCount st + 1 :=
  totalKeyCount_ensureApply st "any-key" _ (fun _ => rfl)

theorem totalKeyCount_sampleSortedSet (k : String) (l : Int) (m : String) (st : StatsMap) :
    totalKeyCount (sampleSortedSet k l m AnyKey st) = totalKeyCount st + 1 :=
  totalKeyCount_ensureApply st "any-key" _ (fun _ => rfl)

theorem totalKeyCount_sampleHash (k : String) (l : Int) (f v : String) (st : StatsMap) :
    totalKeyCount (sampleHash k l f v AnyKey st) = totalKeyCount st + 1 :=
  totalKeyCount_ensureApply st "any-key" _ (fun _ => rfl)

theorem runLoop_keycount (n : Nat) (obs : List Obs) :
    ∀ (st : StatsMap) (c : Nat), c < n → (∀ o ∈ obs, okObs o = true) →
      n - c ≤ obs.length →
      totalKeyCount (runLoop AnyKey false n none st c obs).1 =
        totalKeyCount st + ((n : Int) - 1 - (c : Int)) := by
  induction obs with
  | nil =>
      intro st c hc hok hlen
      simp only [List.length_nil, Nat.le_zero] at hlen
      omega
  | cons o rest ih =>
      intro st c hc hok hlen
      have hok2 : ∀ x ∈ rest, okObs x = true :=
        fun x hx => hok x (List.mem_cons_of_mem _ hx)
      match o with
      | Obs.failure e =>
          have := hok (Obs.failure e) (List.mem_cons_self _ _)
          simp [okObs] at this
      | Obs.key k d =>
          by_cases hstop : c + 1 = n
          · simp only [runLoop]
            rw [if_pos (And.intro trivial hstop)]
            have hcast : ((n : Int) - 1 - (c : Int)) = 0 := by omega
            rw [hcast]
            ring
          · have hcond : ¬ (True ∧ c + 1 = n) := fun h => hstop h.2
            have hc2 : c + 1 < n := by omega
            have hlen2 : n - (c + 1) ≤ rest.length := by
              simp only [List.length_cons] at hlen
              omega
            have hcast : totalKeyCount st + 1 + ((n : Int) - 1 - ((c : Int) + 1)) =
                totalKeyCount st + ((n : Int) - 1 - (c : Int)) := by ring
            cases d with
            | strD v =>
                simp only [runLoop]
                rw [if_neg hcond, ih _ _ hc2 hok2 hlen2, totalKeyCount_sampleString]
                push_cast
                omega
            | listD l m =>
                simp only [runLoop]
                rw [if_neg hcond, ih _ _ hc2 hok2 hlen2, totalKeyCount_sampleList]
                push_cast
                omega
            | setD l m =>
                simp only [runLoop]
                rw [if_neg hcond, ih _ _ hc2 hok2 hlen2, totalKeyCount_sampleSet]
                push_cast
                omega
            | zsetD l m =>
                simp only [runLoop]
                rw [if_neg hcond, ih _ _ hc2 hok2 hlen2, totalKeyCount_sampleSortedSet]
                push_cast
                omega
            | hashD l f v =>
                simp only [runLoop]
                rw [if_neg hcond, ih _ _ hc2 hok2 hlen2, totalKeyCount_sampleHash]
                push_cast
                omega
            | unknownD =>
                have := hok (Obs.key k KeyData.unknownD) (List.mem_cons_self _ _)
                simp [okObs] at this

/-- C10: in random-sample mode with configured sample count `n ≥ 1`, over an
error-free stream of known-type observations long enough to reach the
termination check, the final counted observation is never dispatched to a
type sampler: under the `AnyKey` aggregator the total `KeyCount` across
buckets is `n - 1`, not `n`. -/
theorem c10_final_sample_not_dispatched (n : Nat) (obs : List Obs) (hn : 1 ≤ n)
    (hok : ∀ o ∈ obs, okObs o = true) (hlen : n ≤ obs.length) :
    totalKeyCount (runLoop AnyKey false n none [] 0 obs).1 = (n : Int) - 1 := by
  have h := runLoop_keycount n obs [] 0 (by omega) hok (by omega)
  simpa [totalKeyCount] using h

/-- A two-observation error-free stream of string keys. -/
def sampleObs : List Obs :=
  [Obs.key "k1" (KeyData.strD "v1"), Obs.key "k2" (KeyData.strD "v2")]

/-- Witness for C10: with `n = 2` over two string observations, exactly one
observation is folded in. -/
theorem c10_witness :
    ((1 : Nat) ≤ 2 ∧ (∀ o ∈ sampleObs, okObs o = true) ∧ 2 ≤ sampleObs.length) ∧
    totalKeyCount (runLoop AnyKey false 2 none [] 0 sampleObs).1 = (2 : Int) - 1 :=
  ⟨⟨by decide, by decide, by decide⟩,
   c10_final_sample_not_dispatched 2 sampleObs (by decide) (by decide) (by decide)⟩

end Reckon
